import Mathlib

/-!
# Verification of the Fisia signal-segmentation pipeline

Shallow embedding of the core functions of the Fisia repository:

* `src/Fisia/src/time_series_segmentation.py` — `segment_series`
* `src/Fisia/src/angle_calculations.py` — `calculate_angle`,
  `get_keypoint_coordinates`, `calculate_movement_angles`,
  `calculate_statistics_variables`
* `src/Fisia/src/utils.py` — `normalize_time_series`, `find_peaks_valleys`

Conventions used throughout the embedding:

* Python lists and numpy 1-d arrays are `List` values; a Python slice
  `data[a:b]` with non-negative bounds is `pySlice data a b`.
* A Python exception escaping a function (an `IndexError` on an empty list,
  a numpy `ValueError` on an empty array) is modelled by an `Option` result
  being `none`.
* IEEE-754 `nan` (and the infinities, where a zero denominator can arise) is
  modelled by the `none` case of an `Option`-valued number, produced by the
  division helpers `npDiv` / `npDivR` below.
-/

namespace Fisia

/-- Python slice `data[a:b]` for natural bounds: the elements with indices
`a ≤ i < b` that exist, i.e. `(data.drop a).take (b - a)`.  Out-of-range
bounds clamp and `b ≤ a` gives the empty list, exactly as in Python. -/
def pySlice {α : Type} (data : List α) (a b : ℕ) : List α :=
  (data.drop a).take (b - a)

/-! ## Segmenter — `src/Fisia/src/time_series_segmentation.py` -/

/-- The list comprehension of `segment_series` (lines 33 and 38):
`[data[valleys[i]:valleys[i+1]] for i in range(len(valleys) - 1)]`,
one slice per adjacent pair of `vs`. -/
def mkSegments {α : Type} (data : List α) (vs : List ℕ) : List (List α) :=
  (vs.zip vs.tail).map fun p => pySlice data p.1 p.2

/-- Embedding of `segment_series(data, peaks, valleys, expected_reps)`
(`time_series_segmentation.py`, lines 5–40).  The result is `none` exactly
when Python raises an `IndexError`: reading `valleys[0]` or `peaks[0]` of an
empty list (line 22), or `valleys[-1]` / `peaks[-1]` (line 28).  Otherwise:
* if `valleys[0] > peaks[0]`, `0` is prepended to the valley list (line 25);
* if then `valleys[-1] < peaks[-1]`, `len(data) - 1` is appended (line 30);
* the segments are the slices between adjacent repaired valleys (line 33);
* when fewer segments than `expected_reps` were built, line 38 recomputes
  the same comprehension over the same valley list. -/
def segment_series {α : Type} (data : List α) (peaks valleys : List ℕ)
    (expected_reps : ℕ) : Option (List (List α)) :=
  match valleys.head?, peaks.head? with
  | some v0, some p0 =>
    let valleys1 := if p0 < v0 then 0 :: valleys else valleys
    match valleys1.getLast?, peaks.getLast? with
    | some vl, some pl =>
      let valleys2 := if vl < pl then valleys1 ++ [data.length - 1] else valleys1
      let segments := mkSegments data valleys2
      some (if segments.length < expected_reps then mkSegments data valleys2 else segments)
    | _, _ => none
  | _, _ => none

/-- The repaired valley list built by lines 19–30 of `segment_series`, as a
standalone function of the inputs (defaults `headD 0` / `getLastD 0` are
only reached on empty lists, where `segment_series` fails instead). -/
def repairedValleys {α : Type} (data : List α) (peaks valleys : List ℕ) : List ℕ :=
  let valleys1 := if peaks.headD 0 < valleys.headD 0 then 0 :: valleys else valleys
  if valleys1.getLastD 0 < peaks.getLastD 0 then valleys1 ++ [data.length - 1] else valleys1

/-- The segmentation described by the specification (§4.4 items 1–3): repair
the valley list in one simultaneous step — prepend `0` exactly when the first
valley index exceeds the first peak index, append `len(series) - 1` exactly
when the last valley index is below the last peak index — then slice between
adjacent repaired valleys. -/
def segmentSpec {α : Type} (data : List α) (peaks valleys : List ℕ) : List (List α) :=
  let repaired :=
    (if peaks.headD 0 < valleys.headD 0 then [0] else []) ++ valleys ++
      (if valleys.getLastD 0 < peaks.getLastD 0 then [data.length - 1] else [])
  mkSegments data repaired

theorem getLast?_eq_some_getLastD {l : List ℕ} (h : l ≠ []) :
    l.getLast? = some (l.getLastD 0) := by
  cases l with
  | nil => exact absurd rfl h
  | cons a t =>
    rw [List.getLastD_eq_getLast?, List.getLast?_cons]
    simp

/-- For non-empty inputs, `segment_series` succeeds and returns the slices
between adjacent entries of the repaired valley list. -/
theorem segment_series_eq_mkSegments {α : Type} (data : List α)
    (peaks valleys : List ℕ) (expected_reps : ℕ)
    (hp : peaks ≠ []) (hv : valleys ≠ []) :
    segment_series data peaks valleys expected_reps =
      some (mkSegments data (repairedValleys data peaks valleys)) := by
  cases peaks with
  | nil => exact absurd rfl hp
  | cons p0 pt =>
    cases valleys with
    | nil => exact absurd rfl hv
    | cons v0 vt =>
      have hv1 : (if p0 < v0 then 0 :: v0 :: vt else v0 :: vt) ≠ [] := by
        by_cases h : p0 < v0 <;> simp [h]
      have hp1 : (p0 :: pt) ≠ [] := by simp
      unfold segment_series repairedValleys
      simp only [List.head?_cons, List.headD_cons]
      rw [getLast?_eq_some_getLastD hv1, getLast?_eq_some_getLastD hp1]
      simp only [ite_self]

theorem repairedValleys_eq_simultaneous {α : Type} (data : List α)
    (peaks valleys : List ℕ) (hp : peaks ≠ []) (hv : valleys ≠ []) :
    repairedValleys data peaks valleys =
      (if peaks.headD 0 < valleys.headD 0 then [0] else []) ++ valleys ++
        (if valleys.getLastD 0 < peaks.getLastD 0 then [data.length - 1] else []) := by
  cases valleys with
  | nil => exact absurd rfl hv
  | cons v0 vt =>
    unfold repairedValleys
    by_cases h : peaks.headD 0 < (v0 :: vt).headD 0
    · have hlast : (0 :: v0 :: vt).getLastD 0 = (v0 :: vt).getLastD 0 := by
        rw [List.getLastD_eq_getLast?, List.getLastD_eq_getLast?, List.getLast?_cons_cons]
      simp only [h, if_true, hlast]
      by_cases h2 : (v0 :: vt).getLastD 0 < peaks.getLastD 0
      · simp only [h2, if_true]
        simp
      · simp only [h2, if_false]
        simp
    · simp only [h, if_false]
      by_cases h2 : (v0 :: vt).getLastD 0 < peaks.getLastD 0
      · simp only [h2, if_true]
        simp
      · simp only [h2, if_false]
        simp

/-- C1: For every series and non-empty peak and valley lists, `segment_series`
first repairs the valley list — prepending index 0 exactly when the first
valley index is greater than the first peak index, appending `len(series)-1`
exactly when the last valley index is less than the last peak index — and
then returns one slice `series[valleys[i] : valleys[i+1]]` per adjacent pair
of the repaired valley list, in order. -/
theorem segment_series_follows_spec {α : Type} (data : List α)
    (peaks valleys : List ℕ) (expected_reps : ℕ)
    (hp : peaks ≠ []) (hv : valleys ≠ []) :
    segment_series data peaks valleys expected_reps =
      some (segmentSpec data peaks valleys) := by
  rw [segment_series_eq_mkSegments data peaks valleys expected_reps hp hv,
    segmentSpec, repairedValleys_eq_simultaneous data peaks valleys hp hv]

/-- Witness for C1 at a concrete input. -/
theorem segment_series_follows_spec_witness :
    segment_series ([3, 1, 4, 1, 5] : List ℤ) [1] [2, 3] 7 =
      some (segmentSpec ([3, 1, 4, 1, 5] : List ℤ) [1] [2, 3]) :=
  segment_series_follows_spec ([3, 1, 4, 1, 5] : List ℤ) [1] [2, 3] 7
    (by decide) (by decide)

/-- C2 counterexample: on series `[10,20,30,20,10,20,30,20,10]`,
`peaks = [2,6]`, `valleys = [0,4,8]`, `expected_reps = 2`, the second
returned segment is NOT `[10,20,30,20,10]` (the slice `data[4:8]` is
half-open and stops before index 8). -/
theorem segment_series_scenario1_claim_false :
    segment_series ([10, 20, 30, 20, 10, 20, 30, 20, 10] : List ℤ) [2, 6] [0, 4, 8] 2 ≠
      some [[10, 20, 30, 20], [10, 20, 30, 20, 10]] := by
  decide

/-- C2 (amended): on series `[10,20,30,20,10,20,30,20,10]`, `peaks = [2,6]`,
`valleys = [0,4,8]`, `expected_reps = 2`, `segment_series` returns exactly two
segments, `[10,20,30,20]` of length 4 covering `[0,4)` and `[10,20,30,20]` of
length 4 covering `[4,8)`. -/
theorem segment_series_scenario1 :
    segment_series ([10, 20, 30, 20, 10, 20, 30, 20, 10] : List ℤ) [2, 6] [0, 4, 8] 2 =
      some [[10, 20, 30, 20], [10, 20, 30, 20]] := by
  decide

/-- C3: the remediation branch of `segment_series` recomputes the identical
comprehension over the identical valley list, so the result never depends on
`expected_reps` (here stated for all inputs, including the failing ones). -/
theorem segment_series_independent_of_expected_reps {α : Type} (data : List α)
    (peaks valleys : List ℕ) (e₁ e₂ : ℕ) :
    segment_series data peaks valleys e₁ = segment_series data peaks valleys e₂ := by
  unfold segment_series
  cases valleys.head? with
  | none => rfl
  | some v0 =>
    cases peaks.head? with
    | none => rfl
    | some p0 =>
      simp only [ite_self]

/-- C9: `segment_series` fails (Python `IndexError` while reading the first
element of an empty list, modelled by `none`) exactly when the peak list or
the valley list is empty; under the precondition that both are non-empty the
error branch is unreachable. -/
theorem segment_series_none_iff_empty {α : Type} (data : List α)
    (peaks valleys : List ℕ) (expected_reps : ℕ) :
    segment_series data peaks valleys expected_reps = none ↔
      peaks = [] ∨ valleys = [] := by
  constructor
  · intro h
    by_contra hcon
    push_neg at hcon
    rw [segment_series_eq_mkSegments data peaks valleys expected_reps hcon.1 hcon.2] at h
    exact Option.some_ne_none _ h
  · intro h
    rcases h with h | h
    · subst h
      unfold segment_series
      cases valleys.head? <;> rfl
    · subst h
      rfl

/-! ### C4 — concatenation of the segments -/

theorem pySlice_append {α : Type} (data : List α) {a b c : ℕ}
    (h1 : a ≤ b) (h2 : b ≤ c) :
    pySlice data a b ++ pySlice data b c = pySlice data a c := by
  unfold pySlice
  have hc : c - a = (b - a) + (c - b) := by omega
  rw [hc, List.take_add, List.drop_drop]
  have hb : a + (b - a) = b := by omega
  rw [hb]

theorem le_getLastD_of_chain : ∀ (t : List ℕ) (b : ℕ),
    List.Chain' (· ≤ ·) (b :: t) → b ≤ (b :: t).getLastD 0 := by
  intro t
  induction t with
  | nil => intro b _; simp
  | cons c t ih =>
    intro b hchain
    have h1 : b ≤ c := List.chain'_cons.mp hchain |>.1
    have h2 := ih c (List.chain'_cons.mp hchain).2
    calc b ≤ c := h1
      _ ≤ (c :: t).getLastD 0 := h2
      _ = (b :: c :: t).getLastD 0 := by
        rw [List.getLastD_eq_getLast?, List.getLastD_eq_getLast?, List.getLast?_cons_cons]

theorem mkSegments_join {α : Type} (data : List α) :
    ∀ (vs : List ℕ), List.Chain' (· ≤ ·) vs →
      (mkSegments data vs).flatten = pySlice data (vs.headD 0) (vs.getLastD 0) := by
  intro vs
  induction vs with
  | nil => intro _; simp [mkSegments, pySlice]
  | cons a t ih =>
    intro hchain
    cases t with
    | nil => simp [mkSegments, pySlice]
    | cons b t2 =>
      have hab : a ≤ b := (List.chain'_cons.mp hchain).1
      have hrest : List.Chain' (· ≤ ·) (b :: t2) := (List.chain'_cons.mp hchain).2
      have hbl : b ≤ (b :: t2).getLastD 0 := le_getLastD_of_chain t2 b hrest
      have hstep : mkSegments data (a :: b :: t2) =
          pySlice data a b :: mkSegments data (b :: t2) := rfl
      rw [hstep, List.flatten_cons, ih hrest]
      have hlast : (a :: b :: t2).getLastD 0 = (b :: t2).getLastD 0 := by
        rw [List.getLastD_eq_getLast?, List.getLastD_eq_getLast?, List.getLast?_cons_cons]
      rw [List.headD_cons, List.headD_cons, hlast]
      exact pySlice_append data hab hbl

theorem chain'_le_of_lt {l : List ℕ} (h : List.Chain' (· < ·) l) :
    List.Chain' (· ≤ ·) l :=
  List.Chain'.imp (fun _ _ hab => Nat.le_of_lt hab) h

theorem repairedValleys_chain {α : Type} (data : List α) (peaks valleys : List ℕ)
    (hp : peaks ≠ []) (hv : valleys ≠ [])
    (hsort : List.Chain' (· < ·) valleys)
    (hpb : peaks.getLastD 0 < data.length) :
    List.Chain' (· ≤ ·) (repairedValleys data peaks valleys) := by
  have hv1 : List.Chain' (· ≤ ·)
      (if peaks.headD 0 < valleys.headD 0 then 0 :: valleys else valleys) := by
    by_cases h : peaks.headD 0 < valleys.headD 0
    · simp only [h, if_true]
      cases valleys with
      | nil => exact absurd rfl hv
      | cons v0 vt =>
        exact List.chain'_cons.mpr ⟨Nat.zero_le v0, chain'_le_of_lt hsort⟩
    · simp only [h, if_false]
      exact chain'_le_of_lt hsort
  unfold repairedValleys
  by_cases h2 : (if peaks.headD 0 < valleys.headD 0 then 0 :: valleys
      else valleys).getLastD 0 < peaks.getLastD 0
  · simp only [h2, if_true]
    have hne : (if peaks.headD 0 < valleys.headD 0 then 0 :: valleys else valleys) ≠ [] := by
      by_cases h : peaks.headD 0 < valleys.headD 0
      · simp only [h, if_true]
        exact List.cons_ne_nil _ _
      · simp only [h, if_false]
        exact hv
    apply List.Chain'.append hv1 (List.chain'_singleton _)
    intro x hx y hy
    rw [List.getLast?_eq_getLast _ hne] at hx
    rw [Option.mem_def, Option.some_inj] at hx
    rw [List.head?_cons, Option.mem_def, Option.some_inj] at hy
    subst hy
    have hxl : x = (if peaks.headD 0 < valleys.headD 0 then 0 :: valleys
        else valleys).getLastD 0 := by
      rw [List.getLastD_eq_getLast?, List.getLast?_eq_getLast _ hne, Option.getD_some, hx]
    omega
  · simp only [h2, if_false]
    exact hv1

/-- C4 counterexample: with `series = [0,1,2,3]`, `peaks = [1]`,
`valleys = [2]` (both strictly increasing and in bounds), the concatenation
of the returned segments is `[0,1]`, not the slice
`series[valleys[0]:valleys[-1]] = series[2:2] = []` of the input valley
list: boundary repair prepended index 0. -/
theorem segments_join_claim_false :
    (segment_series ([0, 1, 2, 3] : List ℤ) [1] [2] 1).map List.flatten ≠
      some (pySlice ([0, 1, 2, 3] : List ℤ) 2 2) := by
  decide

/-- C4 (amended): for non-empty, strictly increasing, in-bounds peak and
valley lists, concatenating all segments of one `segment_series` call
reproduces exactly `series[v[0] : v[-1]]` where `v` is the repaired valley
list (equal to the input valley list whenever no boundary repair occurs). -/
theorem segments_join_eq_slice {α : Type} (data : List α)
    (peaks valleys : List ℕ) (expected_reps : ℕ)
    (hp : peaks ≠ []) (hv : valleys ≠ [])
    (hsort : List.Chain' (· < ·) valleys)
    (hpb : peaks.getLastD 0 < data.length) :
    (segment_series data peaks valleys expected_reps).map List.flatten =
      some (pySlice data ((repairedValleys data peaks valleys).headD 0)
        ((repairedValleys data peaks valleys).getLastD 0)) := by
  rw [segment_series_eq_mkSegments data peaks valleys expected_reps hp hv,
    Option.map_some']
  rw [mkSegments_join data (repairedValleys data peaks valleys)
    (repairedValleys_chain data peaks valleys hp hv hsort hpb)]

/-- Witness for the amended C4 at a concrete input: boundary repair prepends
0 and appends `len - 1`, and the segments concatenate to `series[0:4]`. -/
theorem segments_join_eq_slice_witness :
    (segment_series ([9, 8, 7, 6, 5] : List ℤ) [1, 3] [2] 4).map List.flatten =
      some (pySlice ([9, 8, 7, 6, 5] : List ℤ)
        ((repairedValleys ([9, 8, 7, 6, 5] : List ℤ) [1, 3] [2]).headD 0)
        ((repairedValleys ([9, 8, 7, 6, 5] : List ℤ) [1, 3] [2]).getLastD 0)) :=
  segments_join_eq_slice ([9, 8, 7, 6, 5] : List ℤ) [1, 3] [2] 4
    (by decide) (by decide) (List.chain'_singleton 2) (by decide)

/-! ## Geometry primitives — `src/Fisia/src/angle_calculations.py` -/

/-- A keypoint record as stored in a frame: a named 2-d landmark with a
confidence score. -/
structure Keypoint where
  name : String
  x : ℝ
  y : ℝ
  score : ℝ

/-- Embedding of `get_keypoint_coordinates(data, name)` (lines 6–11): scan
the frame for the first keypoint with the given name and return its `(x, y)`
coordinates (`np.array([x, y])` becomes a pair); `None` when absent. -/
def get_keypoint_coordinates : List Keypoint → String → Option (ℝ × ℝ)
  | [], _ => none
  | item :: rest, name =>
    if item.name = name then some (item.x, item.y)
    else get_keypoint_coordinates rest name

open Classical in
/-- Embedding of `calculate_angle(p1, p2, p3)` (lines 14–27) over exact
reals: `v1 = p1 - p2`, `v2 = p3 - p2`, result
`arccos(dot/(mag1*mag2)) * 180/π`.  When a magnitude is zero the dot product
is zero as well, so the only reachable zero-denominator case in the Python
code is `0.0/0.0`, which is IEEE `nan`; `nan` then propagates through
`np.arccos` and the scaling, so the function returns `nan` exactly when
`mag1 * mag2 = 0`.  The `none` case models that `nan`; otherwise the exact
real value of the expression is returned (`|dot| ≤ mag1*mag2` by
Cauchy–Schwarz, so `arccos` is applied inside its domain). -/
noncomputable def calculate_angle (p1 p2 p3 : ℝ × ℝ) : Option ℝ :=
  let v1 : ℝ × ℝ := (p1.1 - p2.1, p1.2 - p2.2)
  let v2 : ℝ × ℝ := (p3.1 - p2.1, p3.2 - p2.2)
  let dot_prod := v1.1 * v2.1 + v1.2 * v2.2
  let mag1 := Real.sqrt (v1.1 ^ 2 + v1.2 ^ 2)
  let mag2 := Real.sqrt (v2.1 ^ 2 + v2.2 ^ 2)
  if mag1 * mag2 = 0 then none
  else some (Real.arccos (dot_prod / (mag1 * mag2)) * (180 / Real.pi))

/-- Embedding of `calculate_movement_angles(all_frames_keypoints,
first_keypoint, second_keypoint, thrid_keypoint)` (lines 30–59): one output
entry per frame — the angle when all three named keypoints are found in the
frame, `None` (outer `none`) otherwise. -/
noncomputable def calculate_movement_angles
    (all_frames_keypoints : List (List Keypoint))
    (first_keypoint second_keypoint thrid_keypoint : String) :
    List (Option (Option ℝ)) :=
  match all_frames_keypoints with
  | [] => []
  | frame :: rest =>
    let thrid := get_keypoint_coordinates frame thrid_keypoint
    let second := get_keypoint_coordinates frame second_keypoint
    let first := get_keypoint_coordinates frame first_keypoint
    (match first, second, thrid with
      | some f, some s, some t => some (calculate_angle f s t)
      | _, _, _ => none) ::
      calculate_movement_angles rest first_keypoint second_keypoint thrid_keypoint

/-- C5: for every frame sequence and triple of keypoint names, the angle
series has one entry per input frame, holding the angle value whenever all
three named keypoints are present in that frame and the missing marker
(`None`) otherwise. -/
theorem calculate_movement_angles_one_per_frame
    (frames : List (List Keypoint)) (a b c : String) :
    (calculate_movement_angles frames a b c).length = frames.length ∧
      calculate_movement_angles frames a b c = frames.map (fun frame =>
        match get_keypoint_coordinates frame a, get_keypoint_coordinates frame b,
            get_keypoint_coordinates frame c with
        | some f, some s, some t => some (calculate_angle f s t)
        | _, _, _ => none) := by
  have heq : calculate_movement_angles frames a b c = frames.map (fun frame =>
      match get_keypoint_coordinates frame a, get_keypoint_coordinates frame b,
          get_keypoint_coordinates frame c with
      | some f, some s, some t => some (calculate_angle f s t)
      | _, _, _ => none) := by
    induction frames with
    | nil => rfl
    | cons fr rest ih =>
      simp only [calculate_movement_angles, List.map_cons]
      rw [ih]
  exact ⟨by rw [heq, List.length_map], heq⟩

/-- C10: for coincident points (`p1 = p2` or `p3 = p2`, a zero-magnitude ray
vector), `calculate_angle` silently returns `nan` (the division by a zero
magnitude, modelled by `none`) and raises no error. -/
theorem calculate_angle_degenerate_nan (p1 p2 p3 : ℝ × ℝ)
    (h : p1 = p2 ∨ p3 = p2) : calculate_angle p1 p2 p3 = none := by
  unfold calculate_angle
  rcases h with h | h
  · subst h
    simp
  · subst h
    simp

/-- Witness for C10 at a concrete input. -/
theorem calculate_angle_degenerate_nan_witness :
    calculate_angle ((1 : ℝ), (2 : ℝ)) ((1 : ℝ), (2 : ℝ)) ((4 : ℝ), (6 : ℝ)) = none :=
  calculate_angle_degenerate_nan ((1 : ℝ), (2 : ℝ)) ((1 : ℝ), (2 : ℝ)) ((4 : ℝ), (6 : ℝ))
    (Or.inl rfl)

/-! ## Normalization — `normalize_time_series` in `src/Fisia/src/utils.py` -/

/-- Elementwise numpy division `a / b` on rationals: `none` models the
IEEE non-finite outcome (`nan` when `a = 0`, `±inf` otherwise) produced when
`b = 0`; numpy emits a warning but raises no exception. -/
def npDiv (a b : ℚ) : Option ℚ :=
  if b = 0 then none else some (a / b)

/-- Embedding of `normalize_time_series(angles)` (`utils.py` lines 138–153):
`(angles - np.min(angles)) / (np.max(angles) - np.min(angles))`,
elementwise.  `none` models the `ValueError` numpy raises for `np.min` of an
empty array; each entry of a successful result is `none` exactly when the
divisor `max - min` is zero (every numerator `v - min` is then also zero, so
every entry is the IEEE `nan` of `0.0/0.0`). -/
def normalize_time_series (angles : List ℚ) : Option (List (Option ℚ)) :=
  match angles with
  | [] => none
  | a :: rest =>
    let mn := rest.foldl min a
    let mx := rest.foldl max a
    some ((a :: rest).map fun v => npDiv (v - mn) (mx - mn))

theorem normalize_five_eval :
    normalize_time_series [5, 5, 5, 5, 5] = some [none, none, none, none, none] := by
  have h1 : List.foldl min (5 : ℚ) [5, 5, 5, 5] = 5 := by simp
  have h2 : List.foldl max (5 : ℚ) [5, 5, 5, 5] = 5 := by simp
  simp only [normalize_time_series, h1, h2, List.map_cons, List.map_nil, sub_self]
  simp [npDiv]

/-- C7 counterexample: on the constant series `[5,5,5,5,5]` the code neither
fails (numpy only warns on `0.0/0.0`) nor returns a zero sentinel: it
silently returns a series of five `nan` entries. -/
theorem normalize_constant_claim_false :
    ¬ (normalize_time_series [5, 5, 5, 5, 5] = none ∨
        normalize_time_series [5, 5, 5, 5, 5] = some (List.replicate 5 (some 0))) := by
  rw [normalize_five_eval]
  simp [List.replicate_succ]

theorem foldl_min_replicate (c : ℚ) : ∀ n : ℕ, (List.replicate n c).foldl min c = c := by
  intro n
  induction n with
  | zero => rfl
  | succ m ih =>
    rw [List.replicate_succ, List.foldl_cons, min_self]
    exact ih

theorem foldl_max_replicate (c : ℚ) : ∀ n : ℕ, (List.replicate n c).foldl max c = c := by
  intro n
  induction n with
  | zero => rfl
  | succ m ih =>
    rw [List.replicate_succ, List.foldl_cons, max_self]
    exact ih

/-- C7 (amended): on every non-empty constant series, `normalize_time_series`
raises no error and returns no zero sentinel — it returns a series of the
same length whose every entry is the `nan` marker. -/
theorem normalize_constant_series_all_nan (c : ℚ) (n : ℕ) :
    normalize_time_series (List.replicate (n + 1) c) =
      some (List.replicate (n + 1) none) := by
  rw [List.replicate_succ]
  simp only [normalize_time_series, foldl_min_replicate c n, foldl_max_replicate c n,
    sub_self]
  rw [← List.replicate_succ, List.map_replicate]
  simp [npDiv]

/-! ## Peak/valley detector — `find_peaks_valleys` in `src/Fisia/src/utils.py` -/

/-- Indices that are strict local maxima of the series: both neighbours
exist and are strictly lower. -/
def localMaxCandidates (xs : List ℚ) : List ℕ :=
  (List.range xs.length).filter fun i =>
    decide (0 < i ∧ i + 1 < xs.length ∧
      xs.getD (i - 1) 0 < xs.getD i 0 ∧ xs.getD (i + 1) 0 < xs.getD i 0)

/-- Lowest value seen walking left from index `i` until a strictly higher
value (or the series start) is met. -/
def leftBase (xs : List ℚ) (i : ℕ) : ℚ :=
  ((xs.take i).reverse.takeWhile fun v => decide (v ≤ xs.getD i 0)).foldl min (xs.getD i 0)

/-- Lowest value seen walking right from index `i` until a strictly higher
value (or the series end) is met. -/
def rightBase (xs : List ℚ) (i : ℕ) : ℚ :=
  ((xs.drop (i + 1)).takeWhile fun v => decide (v ≤ xs.getD i 0)).foldl min (xs.getD i 0)

/-- Topographic prominence of index `i`: its height above the higher of the
two bases on either side. -/
def prominenceAt (xs : List ℚ) (i : ℕ) : ℚ :=
  xs.getD i 0 - max (leftBase xs i) (rightBase xs i)

/-- Drop every index closer than `d` samples to the previously accepted
index (`last`). -/
def pruneAux (d : ℕ) : ℕ → List ℕ → List ℕ
  | _, [] => []
  | last, i :: rest =>
    if d ≤ i - last then i :: pruneAux d i rest else pruneAux d last rest

/-- Greedy distance pruning: always accept the first index, then drop every
index closer than `d` samples to the previously accepted one. -/
def prune (d : ℕ) : List ℕ → List ℕ
  | [] => []
  | i :: rest => i :: pruneAux d i rest

/-- Modelled from the spec: `scipy.signal.find_peaks` is an external library
whose code is not part of this repository.  Per §4.3 and the glossary it
returns the indices of local maxima with height at least `h`, prominence at
least `p` (height above the higher of the two lowest intervening points
toward a higher neighbour on either side), and horizontal separation of at
least `d` samples from the previously accepted peak, in increasing order. -/
def find_peaks (xs : List ℚ) (h : ℚ) (d : ℕ) (p : ℚ) : List ℕ :=
  prune d
    (((localMaxCandidates xs).filter fun i => decide (h ≤ xs.getD i 0)).filter
      fun i => decide (p ≤ prominenceAt xs i))

/-- Embedding of `find_peaks_valleys(angulos, hp, hv, dp, dv, pp, pv)`
(`utils.py` lines 156–183): peaks are detected on the series itself with
height `hp`, distance `dp` and prominence `pp`; valleys by running the same
detection on the negated series with height `-hv`, distance `dv` and
prominence `pv`. -/
def find_peaks_valleys (angulos : List ℚ) (hp hv : ℚ) (dp dv : ℕ) (pp pv : ℚ) :
    List ℕ × List ℕ :=
  (find_peaks angulos hp dp pp,
    find_peaks (angulos.map fun x => -x) (-hv) dv pv)

theorem pruneAux_sublist (d : ℕ) :
    ∀ (l : List ℕ) (last : ℕ), (pruneAux d last l).Sublist l := by
  intro l
  induction l with
  | nil =>
    intro last
    exact List.Sublist.refl _
  | cons i rest ih =>
    intro last
    unfold pruneAux
    by_cases h : d ≤ i - last
    · simp only [h, if_true]
      exact List.Sublist.cons₂ i (ih i)
    · simp only [h, if_false]
      exact List.Sublist.cons i (ih last)

theorem prune_sublist (d : ℕ) (l : List ℕ) : (prune d l).Sublist l := by
  cases l with
  | nil => exact List.Sublist.refl _
  | cons i rest => exact List.Sublist.cons₂ i (pruneAux_sublist d rest i)

theorem find_peaks_sublist_range (xs : List ℚ) (h : ℚ) (d : ℕ) (p : ℚ) :
    (find_peaks xs h d p).Sublist (List.range xs.length) := by
  unfold find_peaks localMaxCandidates
  refine List.Sublist.trans (prune_sublist d _) ?_
  refine List.Sublist.trans (List.filter_sublist _) ?_
  exact List.Sublist.trans (List.filter_sublist _) (List.filter_sublist _)

theorem find_peaks_pairwise (xs : List ℚ) (h : ℚ) (d : ℕ) (p : ℚ) :
    List.Pairwise (· < ·) (find_peaks xs h d p) :=
  List.Pairwise.sublist (find_peaks_sublist_range xs h d p)
    (List.pairwise_lt_range xs.length)

theorem find_peaks_mem_lt {xs : List ℚ} {h : ℚ} {d : ℕ} {p : ℚ} {i : ℕ}
    (hi : i ∈ find_peaks xs h d p) : i < xs.length :=
  List.mem_range.mp ((find_peaks_sublist_range xs h d p).subset hi)

/-- C6: for every series and every threshold configuration, the detector
returns a peak index list and a valley index list that are each strictly
increasing, with every index below the length of the passed-in series. -/
theorem find_peaks_valleys_sorted_bounded (angulos : List ℚ) (hp hv : ℚ)
    (dp dv : ℕ) (pp pv : ℚ) :
    List.Chain' (· < ·) (find_peaks_valleys angulos hp hv dp dv pp pv).1 ∧
      ((find_peaks_valleys angulos hp hv dp dv pp pv).1.all
        fun i => decide (i < angulos.length)) = true ∧
      List.Chain' (· < ·) (find_peaks_valleys angulos hp hv dp dv pp pv).2 ∧
      ((find_peaks_valleys angulos hp hv dp dv pp pv).2.all
        fun i => decide (i < angulos.length)) = true := by
  refine ⟨(find_peaks_pairwise _ _ _ _).chain', ?_,
    (find_peaks_pairwise _ _ _ _).chain', ?_⟩
  · rw [List.all_eq_true]
    intro i hi
    exact decide_eq_true (find_peaks_mem_lt hi)
  · rw [List.all_eq_true]
    intro i hi
    have := find_peaks_mem_lt hi
    rw [List.length_map] at this
    exact decide_eq_true this

/-! ## Feature extractor — `calculate_statistics_variables` in
`src/Fisia/src/angle_calculations.py`

The per-segment statistics are computed over exact reals.  numpy results that
can be IEEE `nan`/`±inf` are `Option ℝ` with `none` as the non-finite marker;
statistics delegated to numpy/scipy internals (`median`, `percentile`,
`skew`, `kurtosis`, `histogram`, `entropy`) are modelled after §4.5 of the
specification, since those libraries are external to the repository. -/

/-- numpy scalar division `a / b` over exact reals: `none` models the IEEE
non-finite result (`nan` for `0.0/0.0`, `±inf` otherwise) that numpy produces
with a warning, and no exception, when `b = 0`. -/
noncomputable def npDivR (a b : ℝ) : Option ℝ :=
  if b = 0 then none else some (a / b)

/-- Numpy `np.mean`: sum divided by element count. -/
noncomputable def npMean (s : List ℝ) : ℝ := s.sum / s.length

/-- k-th central moment of the values, population convention. -/
noncomputable def centralMoment (s : List ℝ) (k : ℕ) : ℝ :=
  ((s.map fun x => (x - npMean s) ^ k).sum) / s.length

/-- Numpy `np.var` (population variance, `segment.var()`). -/
noncomputable def npVar (s : List ℝ) : ℝ := centralMoment s 2

/-- Numpy `np.std` (population standard deviation, `segment.std()`). -/
noncomputable def npStd (s : List ℝ) : ℝ := Real.sqrt (npVar s)

/-- Numpy `np.min` of a non-empty array (fold of `min` over the values). -/
noncomputable def npMin (s : List ℝ) : ℝ := s.foldl min (s.headD 0)

/-- Numpy `np.max` of a non-empty array (fold of `max` over the values). -/
noncomputable def npMax (s : List ℝ) : ℝ := s.foldl max (s.headD 0)

/-- Numpy `np.diff`: consecutive differences `s[i+1] - s[i]`. -/
noncomputable def npDiff (s : List ℝ) : List ℝ :=
  (s.zip s.tail).map fun p => p.2 - p.1

/-- Modelled from the spec: `np.median` (numpy is external) — middle element
of the sorted values, or the average of the two middle elements. -/
noncomputable def npMedian (s : List ℝ) : ℝ :=
  let sorted := List.insertionSort (· ≤ ·) s
  let n := s.length
  if n % 2 = 1 then sorted.getD (n / 2) 0
  else (sorted.getD (n / 2 - 1) 0 + sorted.getD (n / 2) 0) / 2

/-- Modelled from the spec: `np.percentile` (numpy is external) with the
linear-interpolation method of §4.5 — the value a fraction
`q/100 * (n - 1)` of the way through the sorted values, interpolating
linearly between the two neighbouring order statistics. -/
noncomputable def npPercentile (s : List ℝ) (q : ℚ) : ℝ :=
  let sorted := List.insertionSort (· ≤ ·) s
  let n := s.length
  let pos : ℚ := q * (n - 1) / 100
  let i : ℕ := ⌊pos⌋.toNat
  let frac : ℚ := pos - i
  sorted.getD i 0 + (frac : ℝ) * (sorted.getD (min (i + 1) (n - 1)) 0 - sorted.getD i 0)

/-- Modelled from the spec: `scipy.stats.skew` (scipy is external) —
Fisher–Pearson skewness `m3 / m2^(3/2)`; on a zero-variance segment the
quotient is `0.0/0.0`, the IEEE `nan` modelled by `none`. -/
noncomputable def scipySkew (s : List ℝ) : Option ℝ :=
  if npVar s = 0 then none
  else some (centralMoment s 3 / npVar s ^ ((3 : ℝ) / 2))

/-- Modelled from the spec: `scipy.stats.kurtosis` (scipy is external) —
excess kurtosis `m4 / m2^2 - 3`, Fisher convention; `none` models the `nan`
of a zero-variance segment. -/
noncomputable def scipyKurtosis (s : List ℝ) : Option ℝ :=
  if npVar s = 0 then none
  else some (centralMoment s 4 / npVar s ^ 2 - 3)

/-- Modelled from the spec: the edges numpy chooses for
`np.histogram(s, bins=10)` — the value range, widened by 0.5 on each side
when the range is empty. -/
noncomputable def histEdges (s : List ℝ) : ℝ × ℝ :=
  let lo := npMin s
  let hi := npMax s
  if hi = lo then (lo - 1 / 2, hi + 1 / 2) else (lo, hi)

/-- Bin number of a value for 10 equal-width bins starting at `lo` (the last
bin is closed, as in numpy). -/
noncomputable def histBinIndex (lo w x : ℝ) : ℕ :=
  min 9 (⌊(x - lo) / w⌋.toNat)

/-- Modelled from the spec: `np.histogram(s, bins=10, density=True)[0]`
(numpy is external) — per-bin count divided by `n * width`. -/
noncomputable def npHistogramDensity (s : List ℝ) : List ℝ :=
  let e := histEdges s
  let w := (e.2 - e.1) / 10
  (List.range 10).map fun b =>
    (((s.filter fun x => decide (histBinIndex e.1 w x = b)).length : ℝ)) / (s.length * w)

/-- Modelled from the spec: `scipy.stats.entropy` (scipy is external) —
Shannon entropy of the normalized weights, with `0 · log 0 = 0`. -/
noncomputable def scipyEntropy (pk : List ℝ) : ℝ :=
  -((pk.map fun p => if p = 0 then 0 else p / pk.sum * Real.log (p / pk.sum)).sum)

/-- Smoothness `np.mean(np.diff(segment, n=2) ** 2)`: mean squared second difference;
for segments shorter than 3 the second-difference array is empty and
`np.mean` of an empty array is the IEEE `nan` (with a warning), modelled by
`none`. -/
noncomputable def smoothnessOf (s : List ℝ) : Option ℝ :=
  let d2 := npDiff (npDiff s)
  if d2.length = 0 then none else some (npMean (d2.map fun x => x ^ 2))

/-- Symmetry `np.mean(np.abs(segment - np.mean(segment)))`: mean absolute deviation. -/
noncomputable def symmetryOf (s : List ℝ) : ℝ :=
  npMean (s.map fun x => |x - npMean s|)

/-- The dictionary appended per segment by `calculate_statistics_variables`
(lines 123–141), as a record. -/
structure FeatureRecord where
  Repetition : ℕ
  min : ℝ
  max : ℝ
  median : ℝ
  duration : ℕ
  standardDeviation : ℝ
  mean : ℝ
  range : ℝ
  variance : ℝ
  CoV : Option ℝ
  skewness : Option ℝ
  kurtosis : Option ℝ
  IQR : ℝ
  TotalDisplacement : ℝ
  Entropy : ℝ
  Smoothness : Option ℝ
  Symmetry : ℝ

/-- The record computed for one segment at 0-based position `index`
(lines 104–141); in particular
`CoV = segment.std() / segment.mean()` via `npDivR`. -/
noncomputable def recordOf (index : ℕ) (segment : List ℝ) : FeatureRecord :=
  { Repetition := index + 1
    min := npMin segment
    max := npMax segment
    median := npMedian segment
    duration := segment.length
    standardDeviation := npStd segment
    mean := npMean segment
    range := npMax segment - npMin segment
    variance := npVar segment
    CoV := npDivR (npStd segment) (npMean segment)
    skewness := scipySkew segment
    kurtosis := scipyKurtosis segment
    IQR := npPercentile segment 75 - npPercentile segment 25
    TotalDisplacement := ((npDiff segment).map fun x => |x|).sum
    Entropy := scipyEntropy (npHistogramDensity segment)
    Smoothness := smoothnessOf segment
    Symmetry := symmetryOf segment }

/-- Embedding of `calculate_statistics_variables(segments)` (lines 92–142):
one `FeatureRecord` per segment, `Repetition` equal to the 1-based segment
position.  `none` models the `IndexError` numpy raises when
`np.percentile` meets an empty segment (the first statistic computed,
line 107), aborting the whole call. -/
noncomputable def statsAux : ℕ → List (List ℝ) → Option (List FeatureRecord)
  | _, [] => some []
  | _, [] :: _ => none
  | index, (x :: xs) :: rest =>
    match statsAux (index + 1) rest with
    | some rs => some (recordOf index (x :: xs) :: rs)
    | none => none

noncomputable def calculate_statistics_variables (segments : List (List ℝ)) :
    Option (List FeatureRecord) :=
  statsAux 0 segments

/-- C8: for every non-empty segment with zero mean (for example a
zero-variance segment of zeros), the feature extractor returns a well-formed
record list — no numeric exception propagates — and the record's `CoV` field
is the `nan` sentinel produced by dividing by the zero mean. -/
theorem cov_zero_mean_sentinel (segment : List ℝ) (h1 : segment ≠ [])
    (h2 : npMean segment = 0) :
    calculate_statistics_variables [segment] = some [recordOf 0 segment] ∧
      (recordOf 0 segment).CoV = none := by
  constructor
  · cases segment with
    | nil => exact absurd rfl h1
    | cons x xs => rfl
  · show npDivR (npStd segment) (npMean segment) = none
    rw [h2]
    unfold npDivR
    simp

/-- Witness for C8 at the concrete zero-variance segment `[0, 0, 0]`. -/
theorem cov_zero_mean_sentinel_witness :
    calculate_statistics_variables [[0, 0, 0]] = some [recordOf 0 [0, 0, 0]] ∧
      (recordOf 0 [0, 0, 0]).CoV = none :=
  cov_zero_mean_sentinel [0, 0, 0] (by simp) (by simp [npMean])

end Fisia
